import Mathlib

set_option maxHeartbeats 1000000

/-!
Shallow embedding of the discrete-event ALOHA simulator in
`queue_sim_api_aloha.py` (classes `Packet`, `Source`, `QueuedServer`,
`Channel`, `QueuedServerMonitor`).

Python floats (virtual times, packet sizes) are modelled as rationals.
Packets are mutable heap objects shared by reference in Python, so the
model keeps a heap `pkts : List Packet` and every container (server
buffers, packet lists, the channel's delivered-packet log) stores heap
indices.  The simpy coroutine bodies of `QueuedServer.run` are cut at
their suspension points (`buffer.get()`, the service timeout, the
backoff timeout) into a `Phase` automaton; the scheduler is abstracted
to an arbitrary interleaving of resumption events with nondecreasing
virtual time (simpy rejects negative delays, so time never moves
backward).  The model allows every interleaving the real scheduler can
produce (and more), so universally quantified safety statements proved
here cover all real runs.
-/

/-- Mirrors class `Packet`: `id`, `size`, `generation_timestamp`, and
`output_timestamp` (initialised to `0` by `Packet.__init__`). -/
structure Packet where
  id : Nat
  size : ℚ
  generation_timestamp : ℚ
  output_timestamp : ℚ
deriving DecidableEq, Inhabited

/-- Control state of a `QueuedServer.run` coroutine between suspension
points: blocked on `buffer.get()` (`idle`), inside the service timeout
holding a packet reference (`transmitting`), or inside the backoff
timeout with the packet saved in `waiting_packet` (`backoff`). -/
inductive Phase where
  | idle : Phase
  | transmitting : Nat → Phase
  | backoff : Nat → Phase
deriving DecidableEq, Inhabited

/-- Mirrors class `QueuedServer` (fields of `__init__`), plus the
coroutine `phase`.  `buffer` holds heap indices, head = front of the
FIFO `simpy.Store`.  `destination` is an index into `Sys.servers`. -/
structure QueuedServer where
  buffer : List Nat
  buffer_max_size : Option ℚ
  buffer_size : ℚ
  collision : Bool
  busy : Bool
  packet_count : Nat
  packets_drop : Nat
  packet_list : List Nat
  destination : Option Nat
  phase : Phase
deriving DecidableEq, Inhabited

/-- Mirrors class `Source`: the monotonic per-source `packet_count`
used as the next packet identifier, and the attached destination
(an index into `Sys.servers`). -/
structure Source where
  packet_count : Nat
  destination : Option Nat
deriving DecidableEq, Inhabited

/-- Mirrors class `Channel`: active-sender list (server indices),
`collision` = collision-detection enabled flag, `busy`, and the
delivered-packet log `packet_list` (heap indices). -/
structure Channel where
  senders_list : List Nat
  collision : Bool
  busy : Bool
  packet_list : List Nat
deriving DecidableEq, Inhabited

/-- Mirrors class `QueuedServerMonitor`: the observed server (index
into `Sys.servers`), the byte-vs-packet mode flag, the append-only
sample list `sizes`, and `time_count`. -/
structure QueuedServerMonitor where
  queued_server : Nat
  count_bytes : Bool
  sizes : List ℚ
  time_count : Nat
deriving DecidableEq, Inhabited

/-- Whole-system state: virtual clock, packet heap, sources, servers,
the shared channel, and monitors.  `owrites` is ghost instrumentation
counting, per heap index, how many times the line
`packet.output_timestamp = env.now` has executed for that packet. -/
structure Sys where
  now : ℚ
  pkts : List Packet
  owrites : Nat → Nat
  sources : List Source
  servers : List QueuedServer
  channel : Channel
  monitors : List QueuedServerMonitor

/-! ### List helpers: point update and default-valued indexing -/

/-- Update the element at index `i` (no-op when out of range),
modelling in-place mutation of the `i`-th Python object. -/
def updAt {α : Type} : List α → Nat → (α → α) → List α
  | [], _, _ => []
  | a :: l, 0, f => f a :: l
  | a :: l, n + 1, f => a :: updAt l n f

@[simp] theorem updAt_nil {α : Type} (n : Nat) (f : α → α) : updAt [] n f = [] := rfl

@[simp] theorem updAt_cons_zero {α : Type} (a : α) (l : List α) (f : α → α) :
    updAt (a :: l) 0 f = f a :: l := rfl

@[simp] theorem updAt_cons_succ {α : Type} (a : α) (l : List α) (n : Nat) (f : α → α) :
    updAt (a :: l) (n + 1) f = a :: updAt l n f := rfl

@[simp] theorem length_updAt {α : Type} (l : List α) (n : Nat) (f : α → α) :
    (updAt l n f).length = l.length := by
  induction l generalizing n with
  | nil => rfl
  | cons a l ih => cases n <;> simp [ih]

theorem getD_updAt {α : Type} (l : List α) (i : Nat) (f : α → α) (j : Nat) (d : α) :
    (updAt l i f).getD j d =
      if j = i ∧ i < l.length then f (l.getD j d) else l.getD j d := by
  induction l generalizing i j with
  | nil => simp
  | cons a l ih =>
    cases i with
    | zero =>
      cases j with
      | zero => simp
      | succ n => simp
    | succ m =>
      cases j with
      | zero => simp
      | succ n =>
        simp only [updAt_cons_succ, List.getD_cons_succ, ih, List.length_cons]
        have hiff : (n + 1 = m + 1 ∧ m + 1 < l.length + 1) ↔ (n = m ∧ m < l.length) := by
          omega
        rw [if_congr hiff rfl rfl]

theorem updAt_oob {α : Type} (l : List α) {i : Nat} (f : α → α) (h : l.length ≤ i) :
    updAt l i f = l := by
  induction l generalizing i with
  | nil => rfl
  | cons a l ih =>
    cases i with
    | zero => simp at h
    | succ m => simp only [updAt_cons_succ]; rw [ih (by simpa using h)]

theorem mem_updAt {α : Type} {l : List α} {i : Nat} {f : α → α} {x : α}
    (h : x ∈ updAt l i f) : x ∈ l ∨ ∃ a ∈ l, x = f a := by
  induction l generalizing i with
  | nil => simp at h
  | cons a l ih =>
    cases i with
    | zero =>
      rcases List.mem_cons.mp h with h1 | h1
      · exact Or.inr ⟨a, List.mem_cons_self a l, h1⟩
      · exact Or.inl (List.mem_cons_of_mem a h1)
    | succ m =>
      rcases List.mem_cons.mp h with h1 | h1
      · exact Or.inl (h1 ▸ List.mem_cons_self a l)
      · rcases ih h1 with h2 | ⟨b, hb, hbx⟩
        · exact Or.inl (List.mem_cons_of_mem a h2)
        · exact Or.inr ⟨b, List.mem_cons_of_mem a hb, hbx⟩

theorem getD_mem {α : Type} (l : List α) (i : Nat) (d : α) (h : i < l.length) :
    l.getD i d ∈ l := by
  induction l generalizing i with
  | nil => simp at h
  | cons a l ih =>
    cases i with
    | zero => simp
    | succ m =>
      simp only [List.getD_cons_succ]
      exact List.mem_cons_of_mem a (ih m (by simpa using h))

theorem getD_append_lt {α : Type} (l l' : List α) (i : Nat) (d : α) (h : i < l.length) :
    (l ++ l').getD i d = l.getD i d := by
  induction l generalizing i with
  | nil => simp at h
  | cons a l ih =>
    cases i with
    | zero => simp
    | succ m => simpa using ih m (by simpa using h)

theorem getD_oob {α : Type} (l : List α) {i : Nat} (d : α) (h : l.length ≤ i) :
    l.getD i d = d := by
  induction l generalizing i with
  | nil => simp
  | cons a l ih =>
    cases i with
    | zero => simp at h
    | succ m => simpa using ih (by simpa using h)

/-! ### Operations translated from the source -/

/-- Admission test of `QueuedServer.put`:
`self.buffer_max_size is None or buffer_futur_size <= self.buffer_max_size`. -/
def admits : Option ℚ → ℚ → Bool
  | none, _ => true
  | some m, futur => decide (futur ≤ m)

/-- Mirrors `QueuedServer.put`: increment `packet_count` first, then
admit the packet into the FIFO (updating `buffer_size`) only when the
prospective occupancy is within capacity; a rejected packet is only
debug-logged. -/
def QueuedServer.put (sv : QueuedServer) (pref : Nat) (psize : ℚ) : QueuedServer :=
  if admits sv.buffer_max_size (sv.buffer_size + psize) then
    { sv with packet_count := sv.packet_count + 1,
              buffer_size := sv.buffer_size + psize,
              buffer := sv.buffer ++ [pref] }
  else
    { sv with packet_count := sv.packet_count + 1 }

/-- Apply `QueuedServer.put` to the server at index `d`. -/
def putTo (svs : List QueuedServer) (d : Nat) (pref : Nat) (psize : ℚ) :
    List QueuedServer :=
  updAt svs d (fun sv => sv.put pref psize)

/-- The mutation of `Channel.broadcast_collision`:
`sender.collision = True`. -/
def setColl (sv : QueuedServer) : QueuedServer := { sv with collision := true }

/-- Mirrors `Channel.broadcast_collision`: set the collision flag of
every server listed in `senders`. -/
def broadcast_collision (svs : List QueuedServer) (senders : List Nat) :
    List QueuedServer :=
  senders.foldl (fun acc j => updAt acc j setColl) svs

/-- Mirrors `Channel.add_sender`: append the sender, mark the channel
busy, and when more than one sender is active and collision detection
is enabled, broadcast the collision to every active sender. -/
def add_sender (svs : List QueuedServer) (ch : Channel) (i : Nat) :
    List QueuedServer × Channel :=
  if 1 < (ch.senders_list ++ [i]).length ∧ ch.collision = true then
    (broadcast_collision svs (ch.senders_list ++ [i]),
     { ch with senders_list := ch.senders_list ++ [i], busy := true })
  else
    (svs, { ch with senders_list := ch.senders_list ++ [i], busy := true })

/-- Mirrors `Channel.remove_sender`: remove the first occurrence of
the sender; clear `busy` when the list becomes empty. -/
def remove_sender (ch : Channel) (i : Nat) : Channel :=
  let l := ch.senders_list.erase i
  { ch with senders_list := l, busy := if l.length = 0 then false else ch.busy }

/-- Set `output_timestamp` of the heap packet at index `p` (no-op when
out of range; unreachable in real runs). -/
def setOutput : List Packet → Nat → ℚ → List Packet
  | [], _, _ => []
  | pk :: l, 0, t => { pk with output_timestamp := t } :: l
  | pk :: l, n + 1, t => pk :: setOutput l n t

@[simp] theorem length_setOutput (l : List Packet) (p : Nat) (t : ℚ) :
    (setOutput l p t).length = l.length := by
  induction l generalizing p with
  | nil => rfl
  | cons pk l ih => cases p <;> simp [setOutput, ih]

theorem getD_setOutput (l : List Packet) (p : Nat) (t : ℚ) (q : Nat) (d : Packet) :
    (setOutput l p t).getD q d =
      if q = p ∧ p < l.length then { l.getD q d with output_timestamp := t }
      else l.getD q d := by
  induction l generalizing p q with
  | nil => simp [setOutput]
  | cons pk l ih =>
    cases p with
    | zero =>
      cases q with
      | zero => simp [setOutput]
      | succ n => simp [setOutput]
    | succ m =>
      cases q with
      | zero => simp [setOutput]
      | succ n =>
        simp only [setOutput, List.getD_cons_succ, ih, List.length_cons]
        have hiff : (n + 1 = m + 1 ∧ m + 1 < l.length + 1) ↔ (n = m ∧ m < l.length) := by
          omega
        rw [if_congr hiff rfl rfl]

theorem mem_setOutput {l : List Packet} {p : Nat} {t : ℚ} {pk : Packet}
    (h : pk ∈ setOutput l p t) :
    pk ∈ l ∨ ∃ q ∈ l, pk = { q with output_timestamp := t } := by
  induction l generalizing p with
  | nil => simp [setOutput] at h
  | cons a l ih =>
    cases p with
    | zero =>
      rcases List.mem_cons.mp h with h1 | h1
      · exact Or.inr ⟨a, List.mem_cons_self a l, h1⟩
      · exact Or.inl (List.mem_cons_of_mem a h1)
    | succ m =>
      rcases List.mem_cons.mp h with h1 | h1
      · exact Or.inl (h1 ▸ List.mem_cons_self a l)
      · rcases ih h1 with h2 | ⟨b, hb, hbx⟩
        · exact Or.inl (List.mem_cons_of_mem a h2)
        · exact Or.inr ⟨b, List.mem_cons_of_mem a hb, hbx⟩

/-! ### Scheduler events and the step function

Each event resumes one suspended coroutine at its next suspension
point; the code it runs until that point is translated below exactly
in the source's statement order. -/

/-- Resumption events: a clock advance, a `Source.run` iteration
emitting a packet of the drawn size, a server obtaining a packet from
its buffer (start of transmission), a server's service timeout firing
(end of transmission), a server's backoff timeout firing, and a
monitor's sampling timeout firing. -/
inductive Ev where
  | advance : ℚ → Ev
  | emit : Nat → ℚ → Ev
  | startTx : Nat → Ev
  | finishTx : Nat → Ev
  | finishBackoff : Nat → Ev
  | sample : Nat → Ev
deriving DecidableEq

/-- Clock advance; simpy's virtual time never moves backward, so a
smaller target is a no-op (such an event cannot occur). -/
def stepAdvance (s : Sys) (t : ℚ) : Sys :=
  if s.now ≤ t then { s with now := t } else s

/-- The `packet_count` increment at the end of a `Source.run` cycle. -/
def bumpSrc (sc : Source) : Source := { sc with packet_count := sc.packet_count + 1 }

/-- One `Source.run` loop iteration after its inter-arrival timeout:
build a `Packet` stamped with the current virtual time and the
source's `packet_count` as id, hand it to the destination's `put`,
then increment `packet_count`. -/
def stepEmit (s : Sys) (j : Nat) (psize : ℚ) : Sys :=
  if j < s.sources.length then
    let src := s.sources.getD j default
    let pref := s.pkts.length
    let pk : Packet := { id := src.packet_count, size := psize,
                         generation_timestamp := s.now, output_timestamp := 0 }
    let servers2 :=
      match src.destination with
      | some d => putTo s.servers d pref psize
      | none => s.servers
    { s with pkts := s.pkts ++ [pk],
             servers := servers2,
             sources := updAt s.sources j bumpSrc }
  else s

/-- The state change of `packet = yield self.buffer.get()`:
pop the FIFO head and hold it (`buffer_size` is NOT decremented). -/
def takeHead (rest : List Nat) (pref : Nat) (sv : QueuedServer) : QueuedServer :=
  { sv with buffer := rest, phase := Phase.transmitting pref }

/-- `QueuedServer.run` from the blocking dequeue to the service
timeout: pop the buffer head, then `channel.add_sender(self)`. -/
def stepStartTx (s : Sys) (i : Nat) : Sys :=
  if i < s.servers.length then
    match (s.servers.getD i default).phase, (s.servers.getD i default).buffer with
    | Phase.idle, pref :: rest =>
      let servers1 := updAt s.servers i (takeHead rest pref)
      let res := add_sender servers1 s.channel i
      { s with servers := res.1, channel := res.2 }
    | _, _ => s
  else s

/-- Collision branch of `QueuedServer.run` after the service timeout:
append to the terminal `packet_list` when no destination is attached
(this happens before the collision check), then increment
`packets_drop`, save the packet in `waiting_packet`, clear the
collision flag, and enter the backoff timeout. -/
def dropRetry (pref : Nat) (sv : QueuedServer) : QueuedServer :=
  { sv with
    packet_list := if sv.destination = none then sv.packet_list ++ [pref] else sv.packet_list,
    packets_drop := sv.packets_drop + 1,
    collision := false,
    phase := Phase.backoff pref }

/-- Success branch of `QueuedServer.run` after the service timeout:
append to the terminal `packet_list` when no destination is attached,
then return to the blocking dequeue. -/
def deliverUpd (pref : Nat) (sv : QueuedServer) : QueuedServer :=
  { sv with
    packet_list := if sv.destination = none then sv.packet_list ++ [pref] else sv.packet_list,
    phase := Phase.idle }

/-- `QueuedServer.run` when the service timeout fires:
`channel.remove_sender(self)`, stamp `packet.output_timestamp` with
the current time (counted by the ghost `owrites`), then either the
success branch (forward to the destination's `put` if attached, append
to the channel's delivered-packet log) or the collision branch. -/
def stepFinishTx (s : Sys) (i : Nat) : Sys :=
  if i < s.servers.length then
    let sv := s.servers.getD i default
    match sv.phase with
    | Phase.transmitting pref =>
      let ch1 := remove_sender s.channel i
      let pkts1 := setOutput s.pkts pref s.now
      let ow1 : Nat → Nat := fun q => if q = pref then s.owrites q + 1 else s.owrites q
      if sv.collision then
        { s with pkts := pkts1, owrites := ow1, channel := ch1,
                 servers := updAt s.servers i (dropRetry pref) }
      else
        let servers1 := updAt s.servers i (deliverUpd pref)
        let servers2 :=
          match sv.destination with
          | some d => putTo servers1 d pref (s.pkts.getD pref default).size
          | none => servers1
        { s with pkts := pkts1, owrites := ow1,
                 channel := { ch1 with packet_list := ch1.packet_list ++ [pref] },
                 servers := servers2 }
    | _ => s
  else s

/-- Loop restart after the backoff timeout: take `waiting_packet`. -/
def retryTx (pref : Nat) (sv : QueuedServer) : QueuedServer :=
  { sv with phase := Phase.transmitting pref }

/-- `QueuedServer.run` when the backoff timeout fires: restart the
loop with `waiting_packet`, i.e. `channel.add_sender(self)` again and
enter the service timeout for the same packet. -/
def stepFinishBackoff (s : Sys) (i : Nat) : Sys :=
  if i < s.servers.length then
    match (s.servers.getD i default).phase with
    | Phase.backoff pref =>
      let servers1 := updAt s.servers i (retryTx pref)
      let res := add_sender servers1 s.channel i
      { s with servers := res.1, channel := res.2 }
    | _ => s
  else s

/-- The append of a sample performed by `QueuedServerMonitor.run`. -/
def monAppend (total : ℚ) (mo : QueuedServerMonitor) : QueuedServerMonitor :=
  { mo with time_count := mo.time_count + 1, sizes := mo.sizes ++ [total] }

/-- `QueuedServerMonitor.run` when the sampling timeout fires: read
`buffer_size` (byte mode) or `len(buffer.items) + busy` (packet mode,
Python bool-to-int coercion) and append it to `sizes`. -/
def stepSample (s : Sys) (m : Nat) : Sys :=
  if m < s.monitors.length then
    let mon := s.monitors.getD m default
    let sv := s.servers.getD mon.queued_server default
    let total : ℚ :=
      if mon.count_bytes then sv.buffer_size
      else (sv.buffer.length : ℚ) + (if sv.busy then 1 else 0)
    { s with monitors := updAt s.monitors m (monAppend total) }
  else s

/-- One scheduler step. -/
def step (s : Sys) (ev : Ev) : Sys :=
  match ev with
  | Ev.advance t => stepAdvance s t
  | Ev.emit j psize => stepEmit s j psize
  | Ev.startTx i => stepStartTx s i
  | Ev.finishTx i => stepFinishTx s i
  | Ev.finishBackoff i => stepFinishBackoff s i
  | Ev.sample m => stepSample s m

/-- A whole run: fold the scheduler's event sequence. -/
def steps (s : Sys) (evs : List Ev) : Sys := evs.foldl step s

@[simp] theorem steps_nil (s : Sys) : steps s [] = s := rfl

@[simp] theorem steps_cons (s : Sys) (ev : Ev) (evs : List Ev) :
    steps s (ev :: evs) = steps (step s ev) evs := rfl

/-! ### Basic lemmas about the operations -/

@[simp] theorem put_collision (sv : QueuedServer) (pref : Nat) (psize : ℚ) :
    (sv.put pref psize).collision = sv.collision := by
  unfold QueuedServer.put; split <;> rfl

@[simp] theorem put_packets_drop (sv : QueuedServer) (pref : Nat) (psize : ℚ) :
    (sv.put pref psize).packets_drop = sv.packets_drop := by
  unfold QueuedServer.put; split <;> rfl

@[simp] theorem put_phase (sv : QueuedServer) (pref : Nat) (psize : ℚ) :
    (sv.put pref psize).phase = sv.phase := by
  unfold QueuedServer.put; split <;> rfl

@[simp] theorem put_destination (sv : QueuedServer) (pref : Nat) (psize : ℚ) :
    (sv.put pref psize).destination = sv.destination := by
  unfold QueuedServer.put; split <;> rfl

@[simp] theorem put_packet_list (sv : QueuedServer) (pref : Nat) (psize : ℚ) :
    (sv.put pref psize).packet_list = sv.packet_list := by
  unfold QueuedServer.put; split <;> rfl

@[simp] theorem put_buffer_max_size (sv : QueuedServer) (pref : Nat) (psize : ℚ) :
    (sv.put pref psize).buffer_max_size = sv.buffer_max_size := by
  unfold QueuedServer.put; split <;> rfl

@[simp] theorem put_busy (sv : QueuedServer) (pref : Nat) (psize : ℚ) :
    (sv.put pref psize).busy = sv.busy := by
  unfold QueuedServer.put; split <;> rfl

@[simp] theorem put_packet_count (sv : QueuedServer) (pref : Nat) (psize : ℚ) :
    (sv.put pref psize).packet_count = sv.packet_count + 1 := by
  unfold QueuedServer.put; split <;> rfl

/-- Admission is all-or-nothing: either the packet is appended to the
FIFO and the occupancy grows by its full size, or nothing changes. -/
theorem put_cases (sv : QueuedServer) (pref : Nat) (psize : ℚ) :
    (admits sv.buffer_max_size (sv.buffer_size + psize) = true ∧
      (sv.put pref psize).buffer = sv.buffer ++ [pref] ∧
      (sv.put pref psize).buffer_size = sv.buffer_size + psize) ∨
    (admits sv.buffer_max_size (sv.buffer_size + psize) = false ∧
      (sv.put pref psize).buffer = sv.buffer ∧
      (sv.put pref psize).buffer_size = sv.buffer_size) := by
  unfold QueuedServer.put
  rcases h : admits sv.buffer_max_size (sv.buffer_size + psize) with _ | _
  · right; simp [h]
  · left; simp [h]

@[simp] theorem setColl_collision (sv : QueuedServer) : (setColl sv).collision = true := rfl

@[simp] theorem setColl_phase (sv : QueuedServer) : (setColl sv).phase = sv.phase := rfl

@[simp] theorem setColl_buffer (sv : QueuedServer) : (setColl sv).buffer = sv.buffer := rfl

@[simp] theorem setColl_buffer_size (sv : QueuedServer) :
    (setColl sv).buffer_size = sv.buffer_size := rfl

@[simp] theorem setColl_buffer_max_size (sv : QueuedServer) :
    (setColl sv).buffer_max_size = sv.buffer_max_size := rfl

@[simp] theorem setColl_packets_drop (sv : QueuedServer) :
    (setColl sv).packets_drop = sv.packets_drop := rfl

@[simp] theorem setColl_packet_list (sv : QueuedServer) :
    (setColl sv).packet_list = sv.packet_list := rfl

@[simp] theorem setColl_destination (sv : QueuedServer) :
    (setColl sv).destination = sv.destination := rfl

@[simp] theorem setColl_setColl (sv : QueuedServer) : setColl (setColl sv) = setColl sv := rfl

@[simp] theorem length_broadcast (svs : List QueuedServer) (senders : List Nat) :
    (broadcast_collision svs senders).length = svs.length := by
  induction senders generalizing svs with
  | nil => rfl
  | cons j L ih => simpa [broadcast_collision] using ih (updAt svs j setColl)

/-- Every entry of the broadcast result is either the original server
or the original with its collision flag set. -/
theorem bcast_getD_or (svs : List QueuedServer) (senders : List Nat) (j : Nat)
    (d : QueuedServer) :
    (broadcast_collision svs senders).getD j d = svs.getD j d ∨
    (broadcast_collision svs senders).getD j d = setColl (svs.getD j d) := by
  induction senders generalizing svs with
  | nil => exact Or.inl rfl
  | cons k L ih =>
    have hrw : broadcast_collision svs (k :: L) = broadcast_collision (updAt svs k setColl) L :=
      rfl
    rw [hrw]
    rcases ih (updAt svs k setColl) with h | h <;> rw [h, getD_updAt] <;> split <;>
      simp [setColl]

theorem mem_bcast {svs : List QueuedServer} {senders : List Nat} {x : QueuedServer}
    (h : x ∈ broadcast_collision svs senders) :
    x ∈ svs ∨ ∃ a ∈ svs, x = setColl a := by
  induction senders generalizing svs with
  | nil => exact Or.inl h
  | cons k L ih =>
    rcases ih (h := h) with h1 | ⟨a, ha, hax⟩
    · rcases mem_updAt h1 with h2 | ⟨b, hb, hbx⟩
      · exact Or.inl h2
      · exact Or.inr ⟨b, hb, hbx⟩
    · rcases mem_updAt ha with h2 | ⟨b, hb, hbx⟩
      · exact Or.inr ⟨a, h2, hax⟩
      · exact Or.inr ⟨b, hb, by rw [hax, hbx, setColl_setColl]⟩

/-- `broadcast_collision` sets the collision flag of every listed
(in-range) server. -/
theorem bcast_sets (svs : List QueuedServer) (senders : List Nat) (j : Nat)
    (d : QueuedServer) (hj : j ∈ senders) (hlen : j < svs.length) :
    ((broadcast_collision svs senders).getD j d).collision = true := by
  induction senders generalizing svs with
  | nil => simp at hj
  | cons k L ih =>
    have hrw : broadcast_collision svs (k :: L) = broadcast_collision (updAt svs k setColl) L :=
      rfl
    rw [hrw]
    rcases List.mem_cons.mp hj with rfl | hjL
    · rcases bcast_getD_or (updAt svs j setColl) L j d with h | h <;> rw [h] <;>
        rw [getD_updAt] <;> simp [hlen]
    · exact ih (updAt svs k setColl) hjL (by simpa using hlen)

@[simp] theorem add_sender_snd_senders (svs : List QueuedServer) (ch : Channel) (i : Nat) :
    (add_sender svs ch i).2.senders_list = ch.senders_list ++ [i] := by
  unfold add_sender; split <;> rfl

@[simp] theorem add_sender_snd_collision (svs : List QueuedServer) (ch : Channel) (i : Nat) :
    (add_sender svs ch i).2.collision = ch.collision := by
  unfold add_sender; split <;> rfl

@[simp] theorem add_sender_snd_packet_list (svs : List QueuedServer) (ch : Channel) (i : Nat) :
    (add_sender svs ch i).2.packet_list = ch.packet_list := by
  unfold add_sender; split <;> rfl

@[simp] theorem add_sender_fst_length (svs : List QueuedServer) (ch : Channel) (i : Nat) :
    (add_sender svs ch i).1.length = svs.length := by
  unfold add_sender; split <;> simp

/-- With collision detection disabled the broadcast never fires. -/
theorem add_sender_no_coll {ch : Channel} (svs : List QueuedServer) (i : Nat)
    (h : ch.collision = false) : (add_sender svs ch i).1 = svs := by
  unfold add_sender
  split
  · rename_i hc; rw [h] at hc; exact absurd hc.2 (by simp)
  · rfl

/-- Every entry of the servers returned by `add_sender` is the
original entry or the original with its collision flag set. -/
theorem add_sender_fst_getD_or (svs : List QueuedServer) (ch : Channel) (i j : Nat)
    (d : QueuedServer) :
    (add_sender svs ch i).1.getD j d = svs.getD j d ∨
    (add_sender svs ch i).1.getD j d = setColl (svs.getD j d) := by
  unfold add_sender
  split
  · exact bcast_getD_or svs _ j d
  · exact Or.inl rfl

theorem mem_add_sender_fst {svs : List QueuedServer} {ch : Channel} {i : Nat}
    {x : QueuedServer} (h : x ∈ (add_sender svs ch i).1) :
    x ∈ svs ∨ ∃ a ∈ svs, x = setColl a := by
  revert h; unfold add_sender; split <;> intro h
  · exact mem_bcast h
  · exact Or.inl h

@[simp] theorem remove_sender_collision (ch : Channel) (i : Nat) :
    (remove_sender ch i).collision = ch.collision := rfl

@[simp] theorem remove_sender_packet_list (ch : Channel) (i : Nat) :
    (remove_sender ch i).packet_list = ch.packet_list := rfl

/-! ### Structural preservation across steps -/

@[simp] theorem servers_length_step (s : Sys) (ev : Ev) :
    (step s ev).servers.length = s.servers.length := by
  cases ev <;>
    simp only [step, stepAdvance, stepEmit, stepStartTx, stepFinishTx, stepFinishBackoff,
      stepSample] <;>
    repeat' first
    | rfl
    | split
    | simp [putTo]

theorem servers_length_steps (s : Sys) (evs : List Ev) :
    (steps s evs).servers.length = s.servers.length := by
  induction evs generalizing s with
  | nil => rfl
  | cons ev evs ih => rw [steps_cons, ih, servers_length_step]

/-- A property of the whole state preserved by every step is preserved
by every run. -/
theorem steps_inv {P : Sys → Prop} (hstep : ∀ s ev, P s → P (step s ev))
    (evs : List Ev) (s : Sys) (h : P s) : P (steps s evs) := by
  induction evs generalizing s with
  | nil => exact h
  | cons ev evs ih => exact ih (step s ev) (hstep s ev h)

/-- `setOutput` changes only the output timestamp: identifier, size
and generation timestamp of every heap slot are untouched. -/
theorem setOutput_preserves (l : List Packet) (p : Nat) (t : ℚ) (q : Nat) :
    ((setOutput l p t).getD q default).id = (l.getD q default).id ∧
    ((setOutput l p t).getD q default).size = (l.getD q default).size ∧
    ((setOutput l p t).getD q default).generation_timestamp
        = (l.getD q default).generation_timestamp := by
  rw [getD_setOutput]; split <;> simp

/-! ### Claim C1 -/

/-- Concrete server with capacity 0 bytes (scenario A of the spec). -/
def svCap0 : QueuedServer :=
  { buffer := [], buffer_max_size := some 0, buffer_size := 0, collision := false,
    busy := false, packet_count := 0, packets_drop := 0, packet_list := [],
    destination := none, phase := Phase.idle }

/-- C1 counterexample: with capacity 0 and a positive-size packet,
`put` does NOT increment the drop counter and DOES increment the
received counter, refuting the claimed counter behaviour. -/
theorem C1_counterexample :
    ¬ ((svCap0.put 0 100).packets_drop = svCap0.packets_drop + 1 ∧
       (svCap0.put 0 100).packet_count = svCap0.packet_count) := by
  norm_num [svCap0, QueuedServer.put, admits]

/-- C1 (amended): a `put` whose prospective occupancy exceeds the
configured capacity leaves the buffer and the byte occupancy
unchanged; it does not change the drop counter (the rejection is only
debug-logged), and it increments the received counter, which counts
every `put` call regardless of admission. -/
theorem C1_put_reject (sv : QueuedServer) (pref : Nat) (psize c : ℚ)
    (hmax : sv.buffer_max_size = some c) (hover : ¬ sv.buffer_size + psize ≤ c) :
    (sv.put pref psize).buffer = sv.buffer ∧
    (sv.put pref psize).buffer_size = sv.buffer_size ∧
    (sv.put pref psize).packets_drop = sv.packets_drop ∧
    (sv.put pref psize).packet_count = sv.packet_count + 1 := by
  unfold QueuedServer.put
  rw [hmax]
  simp [admits, hover]

/-- C1 witness: the amended statement evaluated at the capacity-0
server and a size-100 packet. -/
theorem C1_witness :
    (svCap0.put 0 100).buffer = svCap0.buffer ∧
    (svCap0.put 0 100).buffer_size = svCap0.buffer_size ∧
    (svCap0.put 0 100).packets_drop = svCap0.packets_drop ∧
    (svCap0.put 0 100).packet_count = svCap0.packet_count + 1 :=
  C1_put_reject svCap0 0 100 0 rfl (by norm_num [svCap0])

/-! ### Claim C4 -/

/-- C4: when `add_sender` makes the active-sender set's size exceed
one on a channel with collision detection enabled, every (in-range)
member of the resulting active set has its collision flag set, not
only the newcomer. -/
theorem C4_collision_broadcast (svs : List QueuedServer) (ch : Channel) (i j : Nat)
    (hcol : ch.collision = true)
    (hlen : 1 < (add_sender svs ch i).2.senders_list.length)
    (hj : j ∈ (add_sender svs ch i).2.senders_list)
    (hjlen : j < svs.length) :
    ((add_sender svs ch i).1.getD j default).collision = true := by
  rw [add_sender_snd_senders] at hlen hj
  unfold add_sender
  rw [if_pos ⟨hlen, hcol⟩]
  exact bcast_sets svs _ j default hj hjlen

/-- C4 witness: two servers, the second joining while the first is
active; the earlier joiner (index 0) is also flagged. -/
theorem C4_witness :
    ((add_sender [svCap0, svCap0] ⟨[0], true, true, []⟩ 1).1.getD 0 default).collision
      = true :=
  C4_collision_broadcast [svCap0, svCap0] ⟨[0], true, true, []⟩ 1 0 rfl
    (by simp [add_sender]) (by simp [add_sender]) (by simp)

/-! ### Claim C10 -/

/-- C10: for a server with no attached destination, every completed
transmission attempt appends the transmitted packet to the server's
terminal `packet_list` — before the collision flag is checked, so a
collided attempt is recorded as well, once per attempt. -/
theorem C10_terminal_record (s : Sys) (i p : Nat)
    (hi : i < s.servers.length)
    (hph : (s.servers.getD i default).phase = Phase.transmitting p)
    (hdst : (s.servers.getD i default).destination = none) :
    ((step s (Ev.finishTx i)).servers.getD i default).packet_list
      = (s.servers.getD i default).packet_list ++ [p] := by
  show ((stepFinishTx s i).servers.getD i default).packet_list
      = (s.servers.getD i default).packet_list ++ [p]
  unfold stepFinishTx
  rw [if_pos hi]
  simp only [hph]
  split
  · rw [getD_updAt, if_pos ⟨rfl, hi⟩]
    show (if (s.servers.getD i default).destination = none
        then (s.servers.getD i default).packet_list ++ [p]
        else (s.servers.getD i default).packet_list) = _
    rw [if_pos hdst]
  · simp only [hdst]
    rw [getD_updAt, if_pos ⟨rfl, hi⟩]
    show (if (s.servers.getD i default).destination = none
        then (s.servers.getD i default).packet_list ++ [p]
        else (s.servers.getD i default).packet_list) = _
    rw [if_pos hdst]

/-- Concrete system: one server, no destination, currently
transmitting packet 0 with its collision flag raised. -/
def sysOneTx : Sys :=
  { now := 2, pkts := [⟨0, 4, 1, 0⟩], owrites := fun _ => 0, sources := [],
    servers := [{ buffer := [], buffer_max_size := none, buffer_size := 4,
                  collision := true, busy := false, packet_count := 1,
                  packets_drop := 0, packet_list := [], destination := none,
                  phase := Phase.transmitting 0 }],
    channel := ⟨[0], true, true, []⟩, monitors := [] }

/-- C10 witness: the collided attempt in `sysOneTx` is still recorded
in the terminal list. -/
theorem C10_witness :
    ((step sysOneTx (Ev.finishTx 0)).servers.getD 0 default).packet_list
      = (sysOneTx.servers.getD 0 default).packet_list ++ [0] :=
  C10_terminal_record sysOneTx 0 0 (by simp [sysOneTx]) (by simp [sysOneTx])
    (by simp [sysOneTx])

/-! ### Claim C3 -/

/-- C3: a packet whose transmission collides is retried as the very
same packet: after the collision branch the server holds the same heap
reference in backoff, after the backoff it re-enters transmission with
that same reference, and the packet's identifier, size and generation
timestamp are unchanged throughout (only `output_timestamp` was
rewritten). -/
theorem C3_retry_same_packet (s : Sys) (i p : Nat)
    (hi : i < s.servers.length)
    (hph : (s.servers.getD i default).phase = Phase.transmitting p)
    (hc : (s.servers.getD i default).collision = true) :
    ((step s (Ev.finishTx i)).servers.getD i default).phase = Phase.backoff p ∧
    ((step (step s (Ev.finishTx i)) (Ev.finishBackoff i)).servers.getD i default).phase
        = Phase.transmitting p ∧
    ((step (step s (Ev.finishTx i)) (Ev.finishBackoff i)).pkts.getD p default).id
        = (s.pkts.getD p default).id ∧
    ((step (step s (Ev.finishTx i)) (Ev.finishBackoff i)).pkts.getD p default).size
        = (s.pkts.getD p default).size ∧
    ((step (step s (Ev.finishTx i)) (Ev.finishBackoff i)).pkts.getD p default).generation_timestamp
        = (s.pkts.getD p default).generation_timestamp := by
  have h1 : step s (Ev.finishTx i)
      = { s with pkts := setOutput s.pkts p s.now,
                 owrites := fun q => if q = p then s.owrites q + 1 else s.owrites q,
                 channel := remove_sender s.channel i,
                 servers := updAt s.servers i (dropRetry p) } := by
    show stepFinishTx s i = _
    unfold stepFinishTx
    rw [if_pos hi]
    simp only [hph, hc, if_true]
  have hphase1 : ((step s (Ev.finishTx i)).servers.getD i default).phase = Phase.backoff p := by
    rw [h1]
    show ((updAt s.servers i (dropRetry p)).getD i default).phase = _
    rw [getD_updAt, if_pos ⟨rfl, hi⟩]
    rfl
  have hlen1 : i < (step s (Ev.finishTx i)).servers.length := by
    rw [servers_length_step]; exact hi
  have h2 : step (step s (Ev.finishTx i)) (Ev.finishBackoff i)
      = { step s (Ev.finishTx i) with
            servers := (add_sender
              (updAt (step s (Ev.finishTx i)).servers i (retryTx p))
              (step s (Ev.finishTx i)).channel i).1,
            channel := (add_sender
              (updAt (step s (Ev.finishTx i)).servers i (retryTx p))
              (step s (Ev.finishTx i)).channel i).2 } := by
    show stepFinishBackoff (step s (Ev.finishTx i)) i = _
    unfold stepFinishBackoff
    rw [if_pos hlen1]
    simp only [hphase1]
  refine ⟨hphase1, ?_, ?_, ?_, ?_⟩
  · rw [h2]
    show ((add_sender (updAt (step s (Ev.finishTx i)).servers i (retryTx p))
        (step s (Ev.finishTx i)).channel i).1.getD i default).phase = _
    rcases add_sender_fst_getD_or
        (updAt (step s (Ev.finishTx i)).servers i (retryTx p))
        (step s (Ev.finishTx i)).channel i i default with h | h <;>
      rw [h, getD_updAt, if_pos ⟨rfl, hlen1⟩] <;> rfl
  · have hp : (step (step s (Ev.finishTx i)) (Ev.finishBackoff i)).pkts
        = setOutput s.pkts p s.now := by rw [h2, h1]
    rw [hp]
    exact (setOutput_preserves s.pkts p s.now p).1
  · have hp : (step (step s (Ev.finishTx i)) (Ev.finishBackoff i)).pkts
        = setOutput s.pkts p s.now := by rw [h2, h1]
    rw [hp]
    exact (setOutput_preserves s.pkts p s.now p).2.1
  · have hp : (step (step s (Ev.finishTx i)) (Ev.finishBackoff i)).pkts
        = setOutput s.pkts p s.now := by rw [h2, h1]
    rw [hp]
    exact (setOutput_preserves s.pkts p s.now p).2.2

/-! ### Claim C2 -/

/-- Decides whether resuming event `ev` in state `s` executes the
assignment `packet.output_timestamp = env.now` for heap index `p`:
exactly the completion of a transmission attempt holding `p`. -/
def writesOut (s : Sys) (ev : Ev) (p : Nat) : Bool :=
  match ev with
  | Ev.finishTx i =>
      decide (i < s.servers.length) &&
      decide ((s.servers.getD i default).phase = Phase.transmitting p)
  | _ => false

/-- C2 (amended): `output_timestamp` is written exactly once per
completed transmission attempt, not once per packet: every step bumps
the ghost write counter of heap index `p` by one exactly when a server
completes a transmission attempt holding `p`.  In particular a
collided attempt also writes the timestamp, and the successful retry
overwrites it. -/
theorem C2_output_write_per_attempt (s : Sys) (ev : Ev) (p : Nat) :
    (step s ev).owrites p = s.owrites p + (if writesOut s ev p then 1 else 0) := by
  cases ev with
  | advance t =>
    show (stepAdvance s t).owrites p = s.owrites p + (if false then 1 else 0)
    unfold stepAdvance
    split <;> simp
  | emit j psize =>
    show (stepEmit s j psize).owrites p = s.owrites p + (if false then 1 else 0)
    unfold stepEmit
    split <;> simp
  | startTx i =>
    show (stepStartTx s i).owrites p = s.owrites p + (if false then 1 else 0)
    unfold stepStartTx
    repeat' split
    all_goals simp_all
  | finishBackoff i =>
    show (stepFinishBackoff s i).owrites p = s.owrites p + (if false then 1 else 0)
    unfold stepFinishBackoff
    repeat' split
    all_goals simp_all
  | sample m =>
    show (stepSample s m).owrites p = s.owrites p + (if false then 1 else 0)
    unfold stepSample
    split <;> simp
  | finishTx i =>
    show (stepFinishTx s i).owrites p = s.owrites p +
        (if (decide (i < s.servers.length) &&
             decide ((s.servers.getD i default).phase = Phase.transmitting p))
         then 1 else 0)
    unfold stepFinishTx
    by_cases hi : i < s.servers.length
    · rw [if_pos hi]
      rcases hph : (s.servers.getD i default).phase with _ | pref | pref
      · simp_all [List.getD]
      · simp only [hph]
        have hiff : (Phase.transmitting pref = Phase.transmitting p) ↔ pref = p := by
          constructor
          · intro h; cases h; rfl
          · intro h; rw [h]
        by_cases hp : p = pref
        · subst hp
          split <;> simp [hi, hiff]
        · split <;> simp [hi, hiff, hp, Ne.symm hp]
      · simp_all [List.getD]
    · rw [if_neg hi]
      simp [hi]

/-- A fresh server with unlimited capacity and no destination, as the
driver constructs its routers. -/
def svAloha : QueuedServer :=
  { buffer := [], buffer_max_size := none, buffer_size := 0, collision := false,
    busy := false, packet_count := 0, packets_drop := 0, packet_list := [],
    destination := none, phase := Phase.idle }

/-- Two sources feeding two servers on one collision-enabled channel
(the driver's ALOHA topology), empty initial state. -/
def sysTwo : Sys :=
  { now := 0, pkts := [], owrites := fun _ => 0,
    sources := [⟨0, some 0⟩, ⟨0, some 1⟩],
    servers := [svAloha, svAloha],
    channel := ⟨[], true, false, []⟩,
    monitors := [] }

/-- A run with fully overlapping service windows: both transmissions
collide, server 0 backs off, retries, and delivers packet 0. -/
def evsTwo : List Ev :=
  [Ev.emit 0 4, Ev.emit 1 4, Ev.startTx 0, Ev.startTx 1, Ev.advance 1,
   Ev.finishTx 0, Ev.finishTx 1, Ev.advance 2, Ev.finishBackoff 0,
   Ev.advance 3, Ev.finishTx 0]

/-- C2 counterexample: packet 0 is delivered (it ends in the channel's
delivered-packet log), yet its `output_timestamp` was written twice —
once by the collided attempt, once by the successful retry — refuting
"written exactly once over the whole run". -/
theorem C2_counterexample :
    (steps sysTwo evsTwo).owrites 0 = 2 ∧
    (steps sysTwo evsTwo).channel.packet_list = [0] := by
  norm_num [steps, step, sysTwo, evsTwo, svAloha, stepEmit, stepStartTx, stepFinishTx,
    stepFinishBackoff, stepAdvance, putTo, QueuedServer.put, admits, add_sender,
    remove_sender, broadcast_collision, setColl, setOutput, dropRetry, deliverUpd,
    takeHead, retryTx, bumpSrc, updAt]

/-! ### Claim C6 -/

/-- One source feeding one server, observed by a packet-counting
monitor. -/
def sysMon : Sys :=
  { now := 0, pkts := [], owrites := fun _ => 0,
    sources := [⟨0, some 0⟩],
    servers := [svAloha],
    channel := ⟨[], true, false, []⟩,
    monitors := [⟨0, false, [], 0⟩] }

/-- Emit a packet, start its transmission, then sample. -/
def evsMon : List Ev := [Ev.emit 0 5, Ev.startTx 0, Ev.sample 0]

/-- C6 (code bug): at the sampling instant server 0 is actively
transmitting packet 0 — it holds the packet in service and is the
channel's single active sender — and its buffer is empty, yet the
packet-counting monitor appends `0`, not `1`: the sampled expression
is `len(buffer.items) + busy`, and `QueuedServer.busy` is initialised
to `False` and never assigned anywhere in the source, so the
in-service packet is never counted. -/
theorem C6_monitor_misses_in_service :
    ((steps sysMon evsMon).servers.getD 0 default).phase = Phase.transmitting 0 ∧
    (steps sysMon evsMon).channel.senders_list = [0] ∧
    ((steps sysMon evsMon).servers.getD 0 default).buffer = [] ∧
    ((steps sysMon evsMon).monitors.getD 0 default).sizes = [0] := by
  norm_num [steps, step, sysMon, evsMon, svAloha, stepEmit, stepStartTx, stepSample,
    putTo, QueuedServer.put, admits, add_sender, broadcast_collision, setColl,
    takeHead, bumpSrc, updAt, monAppend, List.getD]

/-! ### Shape lemmas: canonical form of each step -/

@[simp] theorem stepAdvance_servers (s : Sys) (t : ℚ) :
    (stepAdvance s t).servers = s.servers := by
  unfold stepAdvance; split <;> rfl

@[simp] theorem stepAdvance_channel (s : Sys) (t : ℚ) :
    (stepAdvance s t).channel = s.channel := by
  unfold stepAdvance; split <;> rfl

@[simp] theorem stepAdvance_pkts (s : Sys) (t : ℚ) :
    (stepAdvance s t).pkts = s.pkts := by
  unfold stepAdvance; split <;> rfl

theorem stepAdvance_now_cases (s : Sys) (t : ℚ) :
    (stepAdvance s t).now = s.now ∨ (s.now ≤ t ∧ (stepAdvance s t).now = t) := by
  unfold stepAdvance; split
  · rename_i h; exact Or.inr ⟨h, rfl⟩
  · exact Or.inl rfl

@[simp] theorem stepSample_servers (s : Sys) (m : Nat) :
    (stepSample s m).servers = s.servers := by
  unfold stepSample; split <;> rfl

@[simp] theorem stepSample_channel (s : Sys) (m : Nat) :
    (stepSample s m).channel = s.channel := by
  unfold stepSample; split <;> rfl

@[simp] theorem stepSample_pkts (s : Sys) (m : Nat) :
    (stepSample s m).pkts = s.pkts := by
  unfold stepSample; split <;> rfl

@[simp] theorem stepSample_now (s : Sys) (m : Nat) :
    (stepSample s m).now = s.now := by
  unfold stepSample; split <;> rfl

@[simp] theorem stepEmit_channel (s : Sys) (j : Nat) (psize : ℚ) :
    (stepEmit s j psize).channel = s.channel := by
  unfold stepEmit; split <;> rfl

@[simp] theorem stepEmit_now (s : Sys) (j : Nat) (psize : ℚ) :
    (stepEmit s j psize).now = s.now := by
  unfold stepEmit; split <;> rfl

/-- Canonical forms of `stepEmit`: no-op, emission into no attached
destination, or emission delivered to destination `d` by `put`. -/
theorem stepEmit_cases (s : Sys) (j : Nat) (psize : ℚ) :
    stepEmit s j psize = s ∨
    (j < s.sources.length ∧
      (s.sources.getD j default).destination = none ∧
      stepEmit s j psize = { s with
        pkts := s.pkts ++ [⟨(s.sources.getD j default).packet_count, psize, s.now, 0⟩],
        sources := updAt s.sources j bumpSrc }) ∨
    ∃ d, j < s.sources.length ∧
      (s.sources.getD j default).destination = some d ∧
      stepEmit s j psize = { s with
        pkts := s.pkts ++ [⟨(s.sources.getD j default).packet_count, psize, s.now, 0⟩],
        servers := putTo s.servers d s.pkts.length psize,
        sources := updAt s.sources j bumpSrc } := by
  unfold stepEmit
  by_cases hj : j < s.sources.length
  · rw [if_pos hj]
    rcases hdst : (s.sources.getD j default).destination with _ | d
    · refine Or.inr (Or.inl ⟨hj, rfl, ?_⟩)
      simp only [hdst]
    · refine Or.inr (Or.inr ⟨d, hj, rfl, ?_⟩)
      simp only [hdst]
  · rw [if_neg hj]; exact Or.inl rfl

/-- Canonical forms of `stepStartTx`. -/
theorem stepStartTx_cases (s : Sys) (i : Nat) :
    stepStartTx s i = s ∨
    ∃ pref rest, i < s.servers.length ∧
      (s.servers.getD i default).phase = Phase.idle ∧
      (s.servers.getD i default).buffer = pref :: rest ∧
      stepStartTx s i = { s with
        servers := (add_sender (updAt s.servers i (takeHead rest pref)) s.channel i).1,
        channel := (add_sender (updAt s.servers i (takeHead rest pref)) s.channel i).2 } := by
  unfold stepStartTx
  by_cases hi : i < s.servers.length
  · rw [if_pos hi]
    rcases hph : (s.servers.getD i default).phase with _ | pref | pref
    · rcases hbuf : (s.servers.getD i default).buffer with _ | ⟨pref, rest⟩
      · exact Or.inl rfl
      · exact Or.inr ⟨pref, rest, hi, rfl, rfl, rfl⟩
    · exact Or.inl rfl
    · exact Or.inl rfl
  · rw [if_neg hi]; exact Or.inl rfl

/-- Canonical forms of `stepFinishBackoff`. -/
theorem stepFinishBackoff_cases (s : Sys) (i : Nat) :
    stepFinishBackoff s i = s ∨
    ∃ pref, i < s.servers.length ∧
      (s.servers.getD i default).phase = Phase.backoff pref ∧
      stepFinishBackoff s i = { s with
        servers := (add_sender (updAt s.servers i (retryTx pref)) s.channel i).1,
        channel := (add_sender (updAt s.servers i (retryTx pref)) s.channel i).2 } := by
  unfold stepFinishBackoff
  by_cases hi : i < s.servers.length
  · rw [if_pos hi]
    rcases hph : (s.servers.getD i default).phase with _ | pref | pref
    · exact Or.inl rfl
    · exact Or.inl rfl
    · exact Or.inr ⟨pref, hi, rfl, rfl⟩
  · rw [if_neg hi]; exact Or.inl rfl

/-- Canonical forms of `stepFinishTx`: no-op, collision branch, or
success branch (with the destination dispatch left as a match). -/
theorem stepFinishTx_cases (s : Sys) (i : Nat) :
    stepFinishTx s i = s ∨
    ∃ pref, i < s.servers.length ∧
      (s.servers.getD i default).phase = Phase.transmitting pref ∧
      (((s.servers.getD i default).collision = true ∧
        stepFinishTx s i = { s with
          pkts := setOutput s.pkts pref s.now,
          owrites := fun q => if q = pref then s.owrites q + 1 else s.owrites q,
          channel := remove_sender s.channel i,
          servers := updAt s.servers i (dropRetry pref) }) ∨
       ((s.servers.getD i default).collision = false ∧
        stepFinishTx s i = { s with
          pkts := setOutput s.pkts pref s.now,
          owrites := fun q => if q = pref then s.owrites q + 1 else s.owrites q,
          channel := { remove_sender s.channel i with
                       packet_list := (remove_sender s.channel i).packet_list ++ [pref] },
          servers :=
            match (s.servers.getD i default).destination with
            | some d => putTo (updAt s.servers i (deliverUpd pref)) d pref
                (s.pkts.getD pref default).size
            | none => updAt s.servers i (deliverUpd pref) })) := by
  unfold stepFinishTx
  by_cases hi : i < s.servers.length
  · rw [if_pos hi]
    rcases hph : (s.servers.getD i default).phase with _ | pref | pref
    · left; simp only [hph]
    · rcases hcol : (s.servers.getD i default).collision with _ | _
      · refine Or.inr ⟨pref, hi, rfl, Or.inr ⟨rfl, ?_⟩⟩
        simp only [hph, hcol, Bool.false_eq_true, if_false]
      · refine Or.inr ⟨pref, hi, rfl, Or.inl ⟨rfl, ?_⟩⟩
        simp only [hph, hcol, if_true]
    · left; simp only [hph]
  · rw [if_neg hi]; exact Or.inl rfl

/-! ### Generic membership-preservation helpers -/

theorem forall_mem_updAt {α : Type} {P : α → Prop} {l : List α} {i : Nat} {f : α → α}
    (hf : ∀ a ∈ l, P a → P (f a)) (h : ∀ a ∈ l, P a) : ∀ a ∈ updAt l i f, P a := by
  intro x hx
  rcases mem_updAt hx with h1 | ⟨a, ha, rfl⟩
  · exact h x h1
  · exact hf a ha (h a ha)

theorem forall_mem_add_sender {P : QueuedServer → Prop} {svs : List QueuedServer}
    {ch : Channel} {i : Nat}
    (hco : ∀ a ∈ svs, P a → P (setColl a)) (h : ∀ a ∈ svs, P a) :
    ∀ a ∈ (add_sender svs ch i).1, P a := by
  intro x hx
  rcases mem_add_sender_fst hx with h1 | ⟨a, ha, rfl⟩
  · exact h x h1
  · exact hco a ha (h a ha)

/-! ### Claim C5 -/

/-- Collision detection disabled, no pending collision flag, and no
recorded drop — the configuration `Channel(collision=False)` starts
in, since `QueuedServer.__init__` clears `collision` and
`packets_drop`. -/
def DropFree (s : Sys) : Prop :=
  s.channel.collision = false ∧
  ∀ sv ∈ s.servers, sv.collision = false ∧ sv.packets_drop = 0

theorem dropFree_step (s : Sys) (ev : Ev) (h : DropFree s) : DropFree (step s ev) := by
  obtain ⟨hch, hsv⟩ := h
  cases ev with
  | advance t =>
    show DropFree (stepAdvance s t)
    unfold DropFree
    simp only [stepAdvance_channel, stepAdvance_servers]
    exact ⟨hch, hsv⟩
  | sample m =>
    show DropFree (stepSample s m)
    unfold DropFree
    simp only [stepSample_channel, stepSample_servers]
    exact ⟨hch, hsv⟩
  | emit j psize =>
    show DropFree (stepEmit s j psize)
    rcases stepEmit_cases s j psize with heq | ⟨hj, hdst, heq⟩ | ⟨d, hj, hdst, heq⟩ <;>
      rw [heq]
    · exact ⟨hch, hsv⟩
    · exact ⟨hch, hsv⟩
    · refine ⟨hch, forall_mem_updAt ?_ hsv⟩
      intro a ha hP
      exact ⟨by simpa using hP.1, by simpa using hP.2⟩
  | startTx i =>
    show DropFree (stepStartTx s i)
    rcases stepStartTx_cases s i with heq | ⟨pref, rest, hi, hph, hbuf, heq⟩ <;> rw [heq]
    · exact ⟨hch, hsv⟩
    · have h1 : ∀ a ∈ updAt s.servers i (takeHead rest pref),
          a.collision = false ∧ a.packets_drop = 0 :=
        forall_mem_updAt (fun a _ hP => ⟨hP.1, hP.2⟩) hsv
      have h2 := add_sender_no_coll (updAt s.servers i (takeHead rest pref)) i hch
      constructor
      · show (add_sender (updAt s.servers i (takeHead rest pref)) s.channel i).2.collision
            = false
        rw [add_sender_snd_collision]; exact hch
      · show ∀ sv ∈ (add_sender (updAt s.servers i (takeHead rest pref)) s.channel i).1, _
        simp only [h2]
        exact h1
  | finishBackoff i =>
    show DropFree (stepFinishBackoff s i)
    rcases stepFinishBackoff_cases s i with heq | ⟨pref, hi, hph, heq⟩ <;> rw [heq]
    · exact ⟨hch, hsv⟩
    · have h1 : ∀ a ∈ updAt s.servers i (retryTx pref),
          a.collision = false ∧ a.packets_drop = 0 :=
        forall_mem_updAt (fun a _ hP => ⟨hP.1, hP.2⟩) hsv
      have h2 := add_sender_no_coll (updAt s.servers i (retryTx pref)) i hch
      constructor
      · show (add_sender (updAt s.servers i (retryTx pref)) s.channel i).2.collision = false
        rw [add_sender_snd_collision]; exact hch
      · show ∀ sv ∈ (add_sender (updAt s.servers i (retryTx pref)) s.channel i).1, _
        simp only [h2]
        exact h1
  | finishTx i =>
    show DropFree (stepFinishTx s i)
    rcases stepFinishTx_cases s i with heq | ⟨pref, hi, hph, hbr⟩
    · rw [heq]; exact ⟨hch, hsv⟩
    · rcases hbr with ⟨hcol, heq⟩ | ⟨hcol, heq⟩
      · have hfalse := (hsv _ (getD_mem s.servers i default hi)).1
        rw [hfalse] at hcol
        cases hcol
      · rw [heq]
        refine ⟨hch, ?_⟩
        rcases hdst : (s.servers.getD i default).destination with _ | d
        · intro sv hm
          simp only [hdst] at hm
          rcases mem_updAt hm with h1 | ⟨a, ha, rfl⟩
          · exact hsv sv h1
          · exact ⟨(hsv a ha).1, (hsv a ha).2⟩
        · intro sv hm
          simp only [hdst] at hm
          rcases mem_updAt hm with h1 | ⟨a, ha, rfl⟩
          · rcases mem_updAt h1 with h2 | ⟨b, hb, rfl⟩
            · exact hsv sv h2
            · exact ⟨(hsv b hb).1, (hsv b hb).2⟩
          · rcases mem_updAt ha with h2 | ⟨b, hb, rfl⟩
            · exact ⟨by simpa using (hsv a h2).1, by simpa using (hsv a h2).2⟩
            · exact ⟨by simpa using (hsv b hb).1, by simpa using (hsv b hb).2⟩

/-- C5: with collision detection disabled on the attached channel,
every server's drop counter remains zero for the entire run, whatever
the contention. -/
theorem C5_no_collision_no_drop (s : Sys) (evs : List Ev) (i : Nat) (h : DropFree s) :
    ((steps s evs).servers.getD i default).packets_drop = 0 := by
  have hinv := steps_inv dropFree_step evs s h
  by_cases hi : i < (steps s evs).servers.length
  · exact (hinv.2 _ (getD_mem _ _ _ hi)).2
  · rw [getD_oob _ _ (le_of_not_lt hi)]
    rfl

/-- The driver's two-server topology, but with collision detection
disabled on the channel. -/
def sysNC : Sys := { sysTwo with channel := ⟨[], false, false, []⟩ }

/-- C5 witness: the fully-overlapping contention run of `evsTwo`
leaves server 0's drop counter at zero when detection is off. -/
theorem C5_witness : ((steps sysNC evsTwo).servers.getD 0 default).packets_drop = 0 :=
  C5_no_collision_no_drop sysNC evsTwo 0
    (by simp [DropFree, sysNC, sysTwo, svAloha])

/-! ### Claim C7 -/

/-- The tracked byte occupancy respects the configured capacity
(`True` when no capacity is configured). -/
def withinCap (sv : QueuedServer) : Bool :=
  match sv.buffer_max_size with
  | none => true
  | some c => decide (sv.buffer_size ≤ c)

/-- Every server is within its configured capacity. -/
def CapOK (s : Sys) : Prop := ∀ sv ∈ s.servers, withinCap sv = true

theorem withinCap_put (sv : QueuedServer) (pref : Nat) (psize : ℚ)
    (h : withinCap sv = true) : withinCap (sv.put pref psize) = true := by
  unfold withinCap at h ⊢
  rw [put_buffer_max_size]
  rcases hmax : sv.buffer_max_size with _ | c
  · rfl
  · rw [hmax] at h
    rcases put_cases sv pref psize with ⟨hadm, _, hsize⟩ | ⟨_, _, hsize⟩
    · rw [hsize]
      unfold admits at hadm
      rw [hmax] at hadm
      simpa using hadm
    · rw [hsize]
      exact h

theorem capOK_step (s : Sys) (ev : Ev) (h : CapOK s) : CapOK (step s ev) := by
  cases ev with
  | advance t =>
    show CapOK (stepAdvance s t)
    unfold CapOK
    simp only [stepAdvance_servers]
    exact h
  | sample m =>
    show CapOK (stepSample s m)
    unfold CapOK
    simp only [stepSample_servers]
    exact h
  | emit j psize =>
    show CapOK (stepEmit s j psize)
    rcases stepEmit_cases s j psize with heq | ⟨_, _, heq⟩ | ⟨d, _, _, heq⟩ <;> rw [heq]
    · exact h
    · exact h
    · exact forall_mem_updAt (fun a _ hP => withinCap_put a _ _ hP) h
  | startTx i =>
    show CapOK (stepStartTx s i)
    rcases stepStartTx_cases s i with heq | ⟨pref, rest, hi, hph, hbuf, heq⟩ <;> rw [heq]
    · exact h
    · exact forall_mem_add_sender (fun a _ hP => hP)
        (forall_mem_updAt (fun a _ hP => hP) h)
  | finishBackoff i =>
    show CapOK (stepFinishBackoff s i)
    rcases stepFinishBackoff_cases s i with heq | ⟨pref, hi, hph, heq⟩ <;> rw [heq]
    · exact h
    · exact forall_mem_add_sender (fun a _ hP => hP)
        (forall_mem_updAt (fun a _ hP => hP) h)
  | finishTx i =>
    show CapOK (stepFinishTx s i)
    rcases stepFinishTx_cases s i with heq | ⟨pref, hi, hph, ⟨hcol, heq⟩ | ⟨hcol, heq⟩⟩ <;>
      rw [heq]
    · exact h
    · exact forall_mem_updAt (fun a _ hP => hP) h
    · rcases hdst : (s.servers.getD i default).destination with _ | d
      · intro sv hm
        simp only [hdst] at hm
        refine forall_mem_updAt ?_ h sv hm
        intro a ha hP
        exact hP
      · intro sv hm
        simp only [hdst] at hm
        refine forall_mem_updAt ?_ (forall_mem_updAt ?_ h) sv hm
        · intro a ha hP
          exact withinCap_put a _ _ hP
        · intro a ha hP
          exact hP

/-- C7: starting within capacity, a server with a configured capacity
never has its byte occupancy exceed it at any point of any run, and
admission at `put` is all-or-nothing, guarded by
`occupancy + packet.size ≤ capacity`. -/
theorem C7_capacity_invariant (s : Sys) (evs : List Ev) (i : Nat)
    (sv : QueuedServer) (pref : Nat) (psize c : ℚ)
    (hcap : CapOK s)
    (hmax : ((steps s evs).servers.getD i default).buffer_max_size = some c) :
    ((steps s evs).servers.getD i default).buffer_size ≤ c ∧
    (if admits sv.buffer_max_size (sv.buffer_size + psize) then
       (sv.put pref psize).buffer = sv.buffer ++ [pref] ∧
       (sv.put pref psize).buffer_size = sv.buffer_size + psize
     else
       (sv.put pref psize).buffer = sv.buffer ∧
       (sv.put pref psize).buffer_size = sv.buffer_size) := by
  constructor
  · have hinv := steps_inv capOK_step evs s hcap
    by_cases hi : i < (steps s evs).servers.length
    · have hw := hinv ((steps s evs).servers.getD i default)
        (getD_mem (steps s evs).servers i default hi)
      unfold withinCap at hw
      rw [hmax] at hw
      simpa using hw
    · rw [getD_oob _ _ (le_of_not_lt hi)] at hmax
      cases hmax
  · rcases put_cases sv pref psize with ⟨hadm, hbuf, hsize⟩ | ⟨hadm, hbuf, hsize⟩
    · rw [if_pos hadm]
      exact ⟨hbuf, hsize⟩
    · rw [if_neg (by simp [hadm])]
      exact ⟨hbuf, hsize⟩

/-- A server with a 5-byte capacity. -/
def svCap5 : QueuedServer := { svAloha with buffer_max_size := some 5 }

/-- One source feeding the capacity-5 server. -/
def sysCap : Sys :=
  { now := 0, pkts := [], owrites := fun _ => 0, sources := [⟨0, some 0⟩],
    servers := [svCap5], channel := ⟨[], true, false, []⟩, monitors := [] }

/-- C7 witness: after admitting one size-4 packet and rejecting a
second (4 + 4 > 5), the tracked occupancy is within capacity; the put
characterization is evaluated at the capacity-0 server. -/
theorem C7_witness :
    ((steps sysCap [Ev.emit 0 4, Ev.emit 0 4]).servers.getD 0 default).buffer_size ≤ 5 ∧
    (if admits svCap0.buffer_max_size (svCap0.buffer_size + 100) then
       (svCap0.put 0 100).buffer = svCap0.buffer ++ [0] ∧
       (svCap0.put 0 100).buffer_size = svCap0.buffer_size + 100
     else
       (svCap0.put 0 100).buffer = svCap0.buffer ∧
       (svCap0.put 0 100).buffer_size = svCap0.buffer_size) :=
  C7_capacity_invariant sysCap [Ev.emit 0 4, Ev.emit 0 4] 0 svCap0 0 100 5
    (by norm_num [CapOK, withinCap, sysCap, svCap5, svAloha])
    (by norm_num [steps, step, stepEmit, sysCap, svCap5, svAloha, putTo,
      QueuedServer.put, admits, bumpSrc, updAt, List.getD])

/-! ### Claim C9 -/

/-- All heap packets have nonnegative size (the configuration
contract: size distributions produce positive values). -/
def SizesOK (s : Sys) : Prop := ∀ pk ∈ s.pkts, 0 ≤ pk.size

/-- An event respects the configuration contract: emitted sizes are
nonnegative. -/
def EvOK : Ev → Bool
  | Ev.emit _ psize => decide (0 ≤ psize)
  | _ => true

theorem sizesOK_step (s : Sys) (ev : Ev) (hev : EvOK ev = true) (h : SizesOK s) :
    SizesOK (step s ev) := by
  cases ev with
  | advance t =>
    show SizesOK (stepAdvance s t)
    unfold SizesOK
    simp only [stepAdvance_pkts]
    exact h
  | sample m =>
    show SizesOK (stepSample s m)
    unfold SizesOK
    simp only [stepSample_pkts]
    exact h
  | startTx i =>
    show SizesOK (stepStartTx s i)
    rcases stepStartTx_cases s i with heq | ⟨pref, rest, hi, hph, hbuf, heq⟩
    · rw [heq]; exact h
    · rw [heq]; exact h
  | finishBackoff i =>
    show SizesOK (stepFinishBackoff s i)
    rcases stepFinishBackoff_cases s i with heq | ⟨pref, hi, hph, heq⟩
    · rw [heq]; exact h
    · rw [heq]; exact h
  | emit j psize =>
    show SizesOK (stepEmit s j psize)
    have hps : 0 ≤ psize := of_decide_eq_true hev
    have hnew : ∀ pk : Packet,
        pk ∈ s.pkts ++ [⟨(s.sources.getD j default).packet_count, psize, s.now, 0⟩] →
        0 ≤ pk.size := by
      intro pk hm
      rcases List.mem_append.mp hm with h1 | h1
      · exact h pk h1
      · rw [List.mem_singleton] at h1
        rw [h1]
        exact hps
    rcases stepEmit_cases s j psize with heq | ⟨_, _, heq⟩ | ⟨d, _, _, heq⟩
    · rw [heq]; exact h
    · rw [heq]; exact hnew
    · rw [heq]; exact hnew
  | finishTx i =>
    show SizesOK (stepFinishTx s i)
    have hso : ∀ pref, ∀ pk ∈ setOutput s.pkts pref s.now, 0 ≤ pk.size := by
      intro pref pk hm
      rcases mem_setOutput hm with h1 | ⟨q, hq, rfl⟩
      · exact h pk h1
      · exact h q hq
    rcases stepFinishTx_cases s i with heq | ⟨pref, hi, hph, ⟨hcol, heq⟩ | ⟨hcol, heq⟩⟩
    · rw [heq]; exact h
    · rw [heq]; exact hso pref
    · rw [heq]; exact hso pref

theorem add_sender_fst_buffer_size (svs : List QueuedServer) (ch : Channel) (k i : Nat)
    (d : QueuedServer) :
    ((add_sender svs ch k).1.getD i d).buffer_size = (svs.getD i d).buffer_size := by
  rcases add_sender_fst_getD_or svs ch k i d with h2 | h2
  · rw [h2]
  · rw [h2]
    rfl

theorem getD_updAt_buffer_size (f : QueuedServer → QueuedServer)
    (hf : ∀ a, (f a).buffer_size = a.buffer_size) (l : List QueuedServer) (k i : Nat)
    (d : QueuedServer) :
    ((updAt l k f).getD i d).buffer_size = (l.getD i d).buffer_size := by
  rw [getD_updAt]
  split
  · rw [hf]
  · rfl

theorem putTo_buffer_size_le (svs : List QueuedServer) (d0 pref : Nat) (psize : ℚ)
    (i : Nat) (dd : QueuedServer) (h : 0 ≤ psize) :
    (svs.getD i dd).buffer_size ≤ ((putTo svs d0 pref psize).getD i dd).buffer_size := by
  unfold putTo
  rw [getD_updAt]
  split
  · rcases put_cases (svs.getD i dd) pref psize with ⟨_, _, hsize⟩ | ⟨_, _, hsize⟩
    · rw [hsize]
      exact le_add_of_nonneg_right h
    · rw [hsize]
  · exact le_refl _

theorem bufferSize_mono_step (s : Sys) (ev : Ev) (i : Nat)
    (hev : EvOK ev = true) (h : SizesOK s) :
    (s.servers.getD i default).buffer_size
      ≤ ((step s ev).servers.getD i default).buffer_size := by
  cases ev with
  | advance t =>
    show _ ≤ ((stepAdvance s t).servers.getD i default).buffer_size
    simp only [stepAdvance_servers]
    exact le_refl _
  | sample m =>
    show _ ≤ ((stepSample s m).servers.getD i default).buffer_size
    simp only [stepSample_servers]
    exact le_refl _
  | emit j psize =>
    show _ ≤ ((stepEmit s j psize).servers.getD i default).buffer_size
    have hps : 0 ≤ psize := of_decide_eq_true hev
    rcases stepEmit_cases s j psize with heq | ⟨_, _, heq⟩ | ⟨d, _, _, heq⟩
    · rw [heq]
    · rw [heq]
    · rw [heq]
      exact putTo_buffer_size_le s.servers d s.pkts.length psize i default hps
  | startTx k =>
    show _ ≤ ((stepStartTx s k).servers.getD i default).buffer_size
    rcases stepStartTx_cases s k with heq | ⟨pref, rest, hk, hph, hbuf, heq⟩
    · rw [heq]
    · rw [heq]
      show _ ≤ ((add_sender (updAt s.servers k (takeHead rest pref)) s.channel k).1.getD
          i default).buffer_size
      rw [add_sender_fst_buffer_size,
        getD_updAt_buffer_size (takeHead rest pref) (fun a => rfl) s.servers k i default]
  | finishBackoff k =>
    show _ ≤ ((stepFinishBackoff s k).servers.getD i default).buffer_size
    rcases stepFinishBackoff_cases s k with heq | ⟨pref, hk, hph, heq⟩
    · rw [heq]
    · rw [heq]
      show _ ≤ ((add_sender (updAt s.servers k (retryTx pref)) s.channel k).1.getD
          i default).buffer_size
      rw [add_sender_fst_buffer_size,
        getD_updAt_buffer_size (retryTx pref) (fun a => rfl) s.servers k i default]
  | finishTx k =>
    show _ ≤ ((stepFinishTx s k).servers.getD i default).buffer_size
    rcases stepFinishTx_cases s k with heq | ⟨pref, hk, hph, ⟨hcol, heq⟩ | ⟨hcol, heq⟩⟩
    · rw [heq]
    · rw [heq]
      show _ ≤ ((updAt s.servers k (dropRetry pref)).getD i default).buffer_size
      rw [getD_updAt_buffer_size (dropRetry pref) (fun a => rfl) s.servers k i default]
    · rw [heq]
      have hsz : 0 ≤ (s.pkts.getD pref default).size := by
        by_cases hp : pref < s.pkts.length
        · exact h (s.pkts.getD pref default) (getD_mem s.pkts pref default hp)
        · rw [getD_oob s.pkts default (le_of_not_lt hp)]
          exact le_refl 0
      rcases hdst : (s.servers.getD k default).destination with _ | d
      · simp only [hdst]
        show _ ≤ ((updAt s.servers k (deliverUpd pref)).getD i default).buffer_size
        rw [getD_updAt_buffer_size (deliverUpd pref) (fun a => rfl) s.servers k i default]
      · simp only [hdst]
        show _ ≤ ((putTo (updAt s.servers k (deliverUpd pref)) d pref
            (s.pkts.getD pref default).size).getD i default).buffer_size
        refine le_trans ?_
          (putTo_buffer_size_le (updAt s.servers k (deliverUpd pref)) d pref
            (s.pkts.getD pref default).size i default hsz)
        rw [getD_updAt_buffer_size (deliverUpd pref) (fun a => rfl) s.servers k i default]

theorem bufferSize_mono_steps (s : Sys) (evs : List Ev) (i : Nat)
    (h1 : SizesOK s) (h2 : ∀ ev ∈ evs, EvOK ev = true) :
    (s.servers.getD i default).buffer_size
      ≤ ((steps s evs).servers.getD i default).buffer_size := by
  induction evs generalizing s with
  | nil => exact le_refl _
  | cons ev evs ih =>
    rw [steps_cons]
    refine le_trans (bufferSize_mono_step s ev i (h2 ev (List.mem_cons_self _ _)) h1) ?_
    exact ih (step s ev) (sizesOK_step s ev (h2 ev (List.mem_cons_self _ _)) h1)
      (fun e he => h2 e (List.mem_cons_of_mem _ he))

/-- C9: the tracked byte occupancy `buffer_size` is never decremented
— dequeuing at the start of a transmission leaves it unchanged — so
over every run (with nonnegative packet sizes, the configuration
contract) it is monotonically non-decreasing: the capacity check in
`put` compares against cumulative admitted bytes, not currently
buffered bytes. -/
theorem C9_buffer_size_monotone (s : Sys) (evs : List Ev) (i : Nat)
    (h1 : SizesOK s) (h2 : ∀ ev ∈ evs, EvOK ev = true) :
    (s.servers.getD i default).buffer_size
        ≤ ((steps s evs).servers.getD i default).buffer_size ∧
    ((stepStartTx s i).servers.getD i default).buffer_size
        = (s.servers.getD i default).buffer_size := by
  constructor
  · exact bufferSize_mono_steps s evs i h1 h2
  · rcases stepStartTx_cases s i with heq | ⟨pref, rest, hi, hph, hbuf, heq⟩
    · rw [heq]
    · rw [heq]
      show ((add_sender (updAt s.servers i (takeHead rest pref)) s.channel i).1.getD
          i default).buffer_size = _
      rw [add_sender_fst_buffer_size,
        getD_updAt_buffer_size (takeHead rest pref) (fun a => rfl) s.servers i i default]

/-- C9 witness: the two-emission run on the capacity-5 server. -/
theorem C9_witness :
    ((sysCap.servers.getD 0 default).buffer_size
        ≤ ((steps sysCap [Ev.emit 0 4, Ev.emit 0 4]).servers.getD 0 default).buffer_size) ∧
    ((stepStartTx sysCap 0).servers.getD 0 default).buffer_size
        = (sysCap.servers.getD 0 default).buffer_size :=
  C9_buffer_size_monotone sysCap [Ev.emit 0 4, Ev.emit 0 4] 0
    (by simp [SizesOK, sysCap])
    (by norm_num [EvOK])

/-! ### Claim C8 -/

/-- The heap reference a server's coroutine currently holds, if any. -/
def phaseRef : Phase → Option Nat
  | Phase.idle => none
  | Phase.transmitting p => some p
  | Phase.backoff p => some p

/-- All heap references held by a server (buffered or in service) are
in range. -/
def serverRefsOK (n : Nat) (sv : QueuedServer) : Prop :=
  (∀ r ∈ sv.buffer, r < n) ∧ (∀ r ∈ (phaseRef sv.phase).toList, r < n)

/-- All server-held references point into the heap. -/
def RefsOK (s : Sys) : Prop := ∀ sv ∈ s.servers, serverRefsOK s.pkts.length sv

/-- Every packet was generated no later than the current virtual time
(packets are stamped with `env.now` at creation and time only
advances). -/
def GenOK (s : Sys) : Prop := ∀ pk ∈ s.pkts, pk.generation_timestamp ≤ s.now

/-- Every entry of the channel's delivered-packet log is in range and
satisfies generation ≤ output. -/
def DelivOK (s : Sys) : Prop :=
  ∀ r ∈ s.channel.packet_list,
    r < s.pkts.length ∧
    (s.pkts.getD r default).generation_timestamp
      ≤ (s.pkts.getD r default).output_timestamp

/-- The combined reachability invariant used for claim C8. -/
def InvC8 (s : Sys) : Prop := RefsOK s ∧ GenOK s ∧ DelivOK s

theorem serverRefsOK_mono {n m : Nat} (hnm : n ≤ m) {sv : QueuedServer}
    (h : serverRefsOK n sv) : serverRefsOK m sv :=
  ⟨fun r hr => lt_of_lt_of_le (h.1 r hr) hnm,
   fun r hr => lt_of_lt_of_le (h.2 r hr) hnm⟩

theorem serverRefsOK_put {n : Nat} {sv : QueuedServer} (pref : Nat) (psize : ℚ)
    (hp : pref < n) (h : serverRefsOK n sv) : serverRefsOK n (sv.put pref psize) := by
  constructor
  · intro r hr
    rcases put_cases sv pref psize with ⟨_, hbuf, _⟩ | ⟨_, hbuf, _⟩ <;> rw [hbuf] at hr
    · rcases List.mem_append.mp hr with h1 | h1
      · exact h.1 r h1
      · rw [List.mem_singleton] at h1
        rw [h1]
        exact hp
    · exact h.1 r hr
  · intro r hr
    rw [put_phase] at hr
    exact h.2 r hr

theorem invC8_step (s : Sys) (ev : Ev) (h : InvC8 s) : InvC8 (step s ev) := by
  obtain ⟨hR, hG, hD⟩ := h
  cases ev with
  | advance t =>
    show InvC8 (stepAdvance s t)
    refine ⟨?_, ?_, ?_⟩
    · unfold RefsOK
      simp only [stepAdvance_servers, stepAdvance_pkts]
      exact hR
    · unfold GenOK
      simp only [stepAdvance_pkts]
      rcases stepAdvance_now_cases s t with hnow | ⟨hle, hnow⟩ <;> simp only [hnow]
      · exact hG
      · exact fun pk hm => le_trans (hG pk hm) hle
    · unfold DelivOK
      simp only [stepAdvance_pkts, stepAdvance_channel]
      exact hD
  | sample m =>
    show InvC8 (stepSample s m)
    refine ⟨?_, ?_, ?_⟩
    · unfold RefsOK
      simp only [stepSample_servers, stepSample_pkts]
      exact hR
    · unfold GenOK
      simp only [stepSample_pkts, stepSample_now]
      exact hG
    · unfold DelivOK
      simp only [stepSample_pkts, stepSample_channel]
      exact hD
  | emit j psize =>
    show InvC8 (stepEmit s j psize)
    have hlen : s.pkts.length
        ≤ (s.pkts ++ [(⟨(s.sources.getD j default).packet_count, psize, s.now, 0⟩ : Packet)]).length := by
      simp only [List.length_append, List.length_singleton]
      omega
    have hGnew : ∀ pk ∈ s.pkts ++
        [(⟨(s.sources.getD j default).packet_count, psize, s.now, 0⟩ : Packet)],
        pk.generation_timestamp ≤ s.now := by
      intro pk hm
      rcases List.mem_append.mp hm with h1 | h1
      · exact hG pk h1
      · rw [List.mem_singleton] at h1
        rw [h1]
    have hDnew : ∀ r ∈ s.channel.packet_list,
        r < (s.pkts ++
          [(⟨(s.sources.getD j default).packet_count, psize, s.now, 0⟩ : Packet)]).length ∧
        ((s.pkts ++
          [(⟨(s.sources.getD j default).packet_count, psize, s.now, 0⟩ : Packet)]).getD
            r default).generation_timestamp
          ≤ ((s.pkts ++
          [(⟨(s.sources.getD j default).packet_count, psize, s.now, 0⟩ : Packet)]).getD
            r default).output_timestamp := by
      intro r hr
      obtain ⟨hrlen, hgo⟩ := hD r hr
      refine ⟨lt_of_lt_of_le hrlen hlen, ?_⟩
      rw [getD_append_lt s.pkts _ r default hrlen]
      exact hgo
    rcases stepEmit_cases s j psize with heq | ⟨hj, hdst, heq⟩ | ⟨d, hj, hdst, heq⟩
    · rw [heq]; exact ⟨hR, hG, hD⟩
    · rw [heq]
      refine ⟨?_, hGnew, hDnew⟩
      intro sv hm
      exact serverRefsOK_mono hlen (hR sv hm)
    · rw [heq]
      refine ⟨?_, hGnew, hDnew⟩
      intro sv hm
      rcases mem_updAt hm with h1 | ⟨a, ha, rfl⟩
      · exact serverRefsOK_mono hlen (hR sv h1)
      · refine serverRefsOK_put s.pkts.length psize ?_ (serverRefsOK_mono hlen (hR a ha))
        simp only [List.length_append, List.length_singleton]
        omega
  | startTx i =>
    show InvC8 (stepStartTx s i)
    rcases stepStartTx_cases s i with heq | ⟨pref, rest, hi, hph, hbuf, heq⟩
    · rw [heq]; exact ⟨hR, hG, hD⟩
    · rw [heq]
      have hsv := hR (s.servers.getD i default) (getD_mem s.servers i default hi)
      have hrest : ∀ r ∈ rest, r < s.pkts.length := fun r hr =>
        hsv.1 r (by rw [hbuf]; exact List.mem_cons_of_mem _ hr)
      have hpref : pref < s.pkts.length :=
        hsv.1 pref (by rw [hbuf]; exact List.mem_cons_self _ _)
      have hP : ∀ x ∈ updAt s.servers i (takeHead rest pref),
          serverRefsOK s.pkts.length x := by
        intro x hx
        rcases mem_updAt hx with h1 | ⟨a, ha, rfl⟩
        · exact hR x h1
        · refine ⟨fun r hr => hrest r hr, fun r hr => ?_⟩
          have hr2 : r ∈ [pref] := hr
          rw [List.mem_singleton] at hr2
          rw [hr2]
          exact hpref
      refine ⟨?_, hG, ?_⟩
      · intro sv hm
        rcases mem_add_sender_fst hm with h1 | ⟨a, ha, rfl⟩
        · exact hP sv h1
        · exact hP a ha
      · unfold DelivOK
        simp only [add_sender_snd_packet_list]
        exact hD
  | finishBackoff i =>
    show InvC8 (stepFinishBackoff s i)
    rcases stepFinishBackoff_cases s i with heq | ⟨pref, hi, hph, heq⟩
    · rw [heq]; exact ⟨hR, hG, hD⟩
    · rw [heq]
      have hsv := hR (s.servers.getD i default) (getD_mem s.servers i default hi)
      have hpref : pref < s.pkts.length :=
        hsv.2 pref (by rw [hph]; exact List.mem_singleton.mpr rfl)
      have hP : ∀ x ∈ updAt s.servers i (retryTx pref),
          serverRefsOK s.pkts.length x := by
        intro x hx
        rcases mem_updAt hx with h1 | ⟨a, ha, rfl⟩
        · exact hR x h1
        · refine ⟨fun r hr => (hR a ha).1 r hr, fun r hr => ?_⟩
          have hr2 : r ∈ [pref] := hr
          rw [List.mem_singleton] at hr2
          rw [hr2]
          exact hpref
      refine ⟨?_, hG, ?_⟩
      · intro sv hm
        rcases mem_add_sender_fst hm with h1 | ⟨a, ha, rfl⟩
        · exact hP sv h1
        · exact hP a ha
      · unfold DelivOK
        simp only [add_sender_snd_packet_list]
        exact hD
  | finishTx i =>
    show InvC8 (stepFinishTx s i)
    rcases stepFinishTx_cases s i with heq | ⟨pref, hi, hph, ⟨hcol, heq⟩ | ⟨hcol, heq⟩⟩
    · rw [heq]; exact ⟨hR, hG, hD⟩
    all_goals
      have hsv := hR (s.servers.getD i default) (getD_mem s.servers i default hi)
      have hpref : pref < s.pkts.length :=
        hsv.2 pref (by rw [hph]; exact List.mem_singleton.mpr rfl)
      have hGnew : ∀ pk ∈ setOutput s.pkts pref s.now,
          pk.generation_timestamp ≤ s.now := by
        intro pk hm
        rcases mem_setOutput hm with h1 | ⟨q, hq, rfl⟩
        · exact hG pk h1
        · exact hG q hq
      have hDold : ∀ r ∈ s.channel.packet_list,
          r < (setOutput s.pkts pref s.now).length ∧
          ((setOutput s.pkts pref s.now).getD r default).generation_timestamp
            ≤ ((setOutput s.pkts pref s.now).getD r default).output_timestamp := by
        intro r hr
        obtain ⟨hrlen, hgo⟩ := hD r hr
        refine ⟨by rw [length_setOutput]; exact hrlen, ?_⟩
        rw [getD_setOutput]
        split
        · rename_i hc
          exact hG (s.pkts.getD r default)
            (getD_mem s.pkts r default (by rw [hc.1]; exact hc.2))
        · exact hgo
      rw [heq]
    -- collision branch
    · refine ⟨?_, hGnew, hDold⟩
      intro sv hm
      rcases mem_updAt hm with h1 | ⟨a, ha, rfl⟩
      · rw [RefsOK] at hR
        refine ⟨fun r hr => ?_, fun r hr => ?_⟩ <;> rw [length_setOutput]
        · exact (hR sv h1).1 r hr
        · exact (hR sv h1).2 r hr
      · refine ⟨fun r hr => ?_, fun r hr => ?_⟩ <;> rw [length_setOutput]
        · exact (hR a ha).1 r hr
        · have hr2 : r ∈ [pref] := hr
          rw [List.mem_singleton] at hr2
          rw [hr2]
          exact hpref
    -- success branch
    · refine ⟨?_, hGnew, ?_⟩
      · have hPdel : ∀ x ∈ updAt s.servers i (deliverUpd pref),
            serverRefsOK (setOutput s.pkts pref s.now).length x := by
          intro x hx
          rw [length_setOutput]
          rcases mem_updAt hx with h1 | ⟨a, ha, rfl⟩
          · exact hR x h1
          · exact ⟨fun r hr => (hR a ha).1 r hr,
              fun r hr => absurd hr (List.not_mem_nil r)⟩
        rcases hdst : (s.servers.getD i default).destination with _ | d
        · simp only [hdst]
          exact hPdel
        · simp only [hdst]
          intro sv hm
          rcases mem_updAt hm with h1 | ⟨a, ha, rfl⟩
          · exact hPdel sv h1
          · refine serverRefsOK_put pref _ ?_ (hPdel a ha)
            rw [length_setOutput]
            exact hpref
      · intro r hr
        rcases List.mem_append.mp hr with h1 | h1
        · exact hDold r h1
        · rw [List.mem_singleton] at h1
          subst h1
          refine ⟨by rw [length_setOutput]; exact hpref, ?_⟩
          rw [getD_setOutput, if_pos ⟨rfl, hpref⟩]
          exact hG (s.pkts.getD r default) (getD_mem s.pkts r default hpref)

/-- C8: every packet in the channel's delivered-packet log satisfies
`generation_timestamp ≤ output_timestamp`, over any run from a state
satisfying the reachability invariant (which the empty initial state
does). -/
theorem C8_delivered_latency (s : Sys) (evs : List Ev) (r : Nat)
    (hInv : InvC8 s) (hr : r ∈ (steps s evs).channel.packet_list) :
    ((steps s evs).pkts.getD r default).generation_timestamp
      ≤ ((steps s evs).pkts.getD r default).output_timestamp :=
  ((steps_inv invC8_step evs s hInv).2.2 r hr).2

/-- One source feeding one server on a fresh channel. -/
def sysOne : Sys :=
  { now := 0, pkts := [], owrites := fun _ => 0, sources := [⟨0, some 0⟩],
    servers := [svAloha], channel := ⟨[], true, false, []⟩, monitors := [] }

/-- Generate, transmit, deliver. -/
def evsOne : List Ev := [Ev.emit 0 4, Ev.startTx 0, Ev.advance 2, Ev.finishTx 0]

/-- C8 witness: packet 0 is delivered in the `evsOne` run, and its
generation timestamp does not exceed its output timestamp. -/
theorem C8_witness :
    ((steps sysOne evsOne).pkts.getD 0 default).generation_timestamp
      ≤ ((steps sysOne evsOne).pkts.getD 0 default).output_timestamp :=
  C8_delivered_latency sysOne evsOne 0
    (by simp [InvC8, RefsOK, GenOK, DelivOK, serverRefsOK, sysOne, svAloha, phaseRef])
    (by norm_num [steps, step, sysOne, evsOne, svAloha, stepEmit, stepStartTx,
      stepFinishTx, stepAdvance, putTo, QueuedServer.put, admits, add_sender,
      remove_sender, broadcast_collision, setColl, setOutput, dropRetry, deliverUpd,
      takeHead, bumpSrc, updAt, List.getD])

/-- C3 witness: the collided transmission in `sysOneTx` retries packet
0 unchanged. -/
theorem C3_witness :
    ((step sysOneTx (Ev.finishTx 0)).servers.getD 0 default).phase = Phase.backoff 0 ∧
    ((step (step sysOneTx (Ev.finishTx 0)) (Ev.finishBackoff 0)).servers.getD
        0 default).phase = Phase.transmitting 0 ∧
    ((step (step sysOneTx (Ev.finishTx 0)) (Ev.finishBackoff 0)).pkts.getD
        0 default).id = (sysOneTx.pkts.getD 0 default).id ∧
    ((step (step sysOneTx (Ev.finishTx 0)) (Ev.finishBackoff 0)).pkts.getD
        0 default).size = (sysOneTx.pkts.getD 0 default).size ∧
    ((step (step sysOneTx (Ev.finishTx 0)) (Ev.finishBackoff 0)).pkts.getD
        0 default).generation_timestamp
      = (sysOneTx.pkts.getD 0 default).generation_timestamp :=
  C3_retry_same_packet sysOneTx 0 0 (by simp [sysOneTx]) (by simp [sysOneTx])
    (by simp [sysOneTx])
